import Mathlib

/-!
Verification development for the MCP control-plane graph executor
(`control_plane.py`, class `Orchestrator`, method `execute`).

The executor is shallowly embedded as pure Lean functions:

* JSON-like values become the inductive `Val` (Python `None` is `Val.null`).
* Python dicts become association lists (`alookup` / `aupd` mirror
  `d[k]` / `d[k] = v` with insertion-order preservation, as CPython does).
* The `networkx` `DiGraph` built by `execute` becomes `DiGraph`:
  an insertion-ordered node list (attribute-less entries model nodes that
  were auto-created by `add_edge` for an unknown endpoint) plus an
  insertion-ordered edge list carrying the `fallback` edge attribute.
* `nx.topological_sort` is a lazy generator: it emits a Kahn ordering and
  raises `NetworkXUnfeasible` only after the orderable prefix has been
  consumed (and hence executed).  `topoResult` returns that orderable
  prefix together with the leftover (non-orderable) nodes.
* The HTTP transport is a parameter `Svc : String → Val → Except String Val`;
  `post url body` followed by `raise_for_status()` and `.json()` is one
  fallible operation whose error string is Python's `str(e)`.  The fixed
  `timeout=5.0` is real time and is not part of the functional model.
* Exceptions raised by `execute` become the inductive `PyErr`.
* Every issued network request is recorded in a ghost call log (`CallRec`),
  which also tags whether it was the primary or the fallback request and
  whether the service call succeeded.
-/

set_option linter.unusedVariables false

namespace ControlPlane

/-- JSON-like values exchanged with services; `null` is Python `None`. -/
inductive Val where
  | str : String → Val
  | num : Int → Val
  | null : Val
  | obj : List (String × Val) → Val

/-- Python truthiness of a JSON-like value (used by `if fallback:`). -/
def Val.truthy : Val → Bool
  | .str s => s ≠ ""
  | .num n => n ≠ 0
  | .null => false
  | .obj m => ¬ m.isEmpty

/-- Dictionary read `d.get(k)` on an insertion-ordered association list. -/
def alookup {α : Type} : List (String × α) → String → Option α
  | [], _ => none
  | (k0, v0) :: tl, k => if k0 = k then some v0 else alookup tl k

/-- Dictionary write `d[k] = v`: updates the first binding in place, else
appends (CPython dicts keep insertion order). -/
def aupd {α : Type} : List (String × α) → String → α → List (String × α)
  | [], k, v => [(k, v)]
  | (k0, v0) :: tl, k, v => if k0 = k then (k, v) :: tl else (k0, v0) :: aupd tl k v

/-- Build a Python dict from a key/value sequence (later keys overwrite). -/
def pyDict {α : Type} (l : List (String × α)) : List (String × α) :=
  l.foldl (fun m kv => aupd m kv.1 kv.2) []

/-- Attributes a node dict carries into `G.add_node(node["name"], **node)`.
`endpoint` and `inputs` are the keys `execute` reads; `fallback_endpoint`
is carried along but — as the proofs below show — never consulted. -/
structure NodeAttrs where
  endpoint : String
  inputs : List (String × String)
  fallback_endpoint : Option String
deriving DecidableEq

/-- One entry of `graph["nodes"]`. -/
structure NodeSpec where
  name : String
  attrs : NodeAttrs

/-- One entry of `graph["edges"]`: `src` is the JSON key `"from"`, `dst`
is `"to"`, `fallback` is `edge.get("fallback")` (absent ⇒ `none`). -/
structure EdgeSpec where
  src : String
  dst : String
  fallback : Option Val

/-- The request body `graph` consumed by `execute`. -/
structure GraphSpec where
  nodes : List NodeSpec
  edges : List EdgeSpec

/-- The `networkx.DiGraph` built by `execute`: insertion-ordered nodes
(`none` attributes for nodes auto-created by `add_edge`) and
insertion-ordered edges with their `fallback` attribute. -/
structure DiGraph where
  nodes : List (String × Option NodeAttrs)
  edges : List ((String × String) × Option Val)

/-- Node names in insertion order (`list(G.nodes)`). -/
def nodeKeys (G : DiGraph) : List String := G.nodes.map Prod.fst

/-- Attribute dictionary of a node (`G.nodes[name]`); outer `none` means
the name is not a node at all. -/
def lookupNode (G : DiGraph) (name : String) : Option (Option NodeAttrs) :=
  alookup G.nodes name

/-- Effect of `G.add_node(node["name"], **node)`: update the attributes in
place if the name exists, otherwise append. -/
def addNodeSpec (G : DiGraph) (n : NodeSpec) : DiGraph :=
  { G with nodes :=
      if G.nodes.any (fun p => p.1 = n.name) then
        G.nodes.map (fun p => if p.1 = n.name then (n.name, some n.attrs) else p)
      else G.nodes ++ [(n.name, some n.attrs)] }

/-- `add_edge` auto-creates missing endpoint nodes with no attributes. -/
def ensureNode (G : DiGraph) (name : String) : DiGraph :=
  { G with nodes :=
      if G.nodes.any (fun p => p.1 = name) then G.nodes
      else G.nodes ++ [(name, none)] }

/-- Effect of `G.add_edge(edge["from"], edge["to"], fallback=edge.get("fallback"))`. -/
def addEdge (G : DiGraph) (e : EdgeSpec) : DiGraph :=
  let G1 := ensureNode (ensureNode G e.src) e.dst
  { G1 with edges :=
      if G1.edges.any (fun p => p.1 = (e.src, e.dst)) then
        G1.edges.map (fun p => if p.1 = (e.src, e.dst) then ((e.src, e.dst), e.fallback) else p)
      else G1.edges ++ [((e.src, e.dst), e.fallback)] }

/-- The graph-building loop at the top of `execute`. -/
def buildGraph (g : GraphSpec) : DiGraph :=
  (g.edges.foldl addEdge (g.nodes.foldl addNodeSpec ⟨[], []⟩))

/-- Inbound edges of a node with their `fallback` attribute, in edge
insertion order (`list(G.in_edges(name))` pairs each with its data). -/
def inEdges (G : DiGraph) (name : String) : List (String × Option Val) :=
  G.edges.filterMap (fun e => if e.1.2 = name then some (e.1.1, e.2) else none)

/-- Predecessors of a node, in edge insertion order. -/
def predList (G : DiGraph) (name : String) : List String :=
  (inEdges G name).map Prod.fst

/-- A node is ready for Kahn's algorithm once all predecessors are done. -/
def readyNode (G : DiGraph) (done : List String) (n : String) : Bool :=
  (predList G n).all (fun u => decide (u ∈ done))

/-- Kahn's algorithm, as performed lazily by `nx.topological_sort`:
returns the emitted order and the leftover nodes (nonempty leftover is
exactly the situation in which the generator raises `NetworkXUnfeasible`,
after the caller has consumed — and executed — the emitted prefix). -/
def topoAux (G : DiGraph) : Nat → List String → List String → List String × List String
  | 0, _, rem => ([], rem)
  | Nat.succ fuel, done, rem =>
    match rem.find? (readyNode G done) with
    | none => ([], rem)
    | some n =>
      let p := topoAux G fuel (done ++ [n]) (rem.erase n)
      (n :: p.1, p.2)

/-- Orderable prefix and non-orderable leftover of the node set. -/
def topoResult (G : DiGraph) : List String × List String :=
  topoAux G (nodeKeys G).length [] (nodeKeys G)

/-- One input value: `results.get(v, payload.get(v))`; a key found in
neither mapping resolves to Python `None`. -/
def resolveKey (results payload : List (String × Val)) (v : String) : Val :=
  match alookup results v with
  | some x => x
  | none =>
    match alookup payload v with
    | some x => x
    | none => Val.null

/-- Fields of the request body
`{k: results.get(v, payload.get(v)) for k, v in node["inputs"].items()}`. -/
def resolveFields (inputs : List (String × String))
    (results payload : List (String × Val)) : List (String × Val) :=
  pyDict (inputs.map (fun kv => (kv.1, resolveKey results payload kv.2)))

/-- The resolved JSON request body for a node. -/
def resolveInputs (inputs : List (String × String))
    (results payload : List (String × Val)) : Val :=
  Val.obj (resolveFields inputs results payload)

/-- Deterministic service stub: endpoint and request body to decoded
response (`post` + `raise_for_status` + `.json()`), or `str(e)` on failure. -/
def Svc : Type := String → Val → Except String Val

/-- Whether a logged request was the primary or the fallback attempt. -/
inductive CallKind where
  | primary : CallKind
  | fallback : CallKind
deriving DecidableEq

/-- Ghost record of one issued network request. -/
structure CallRec where
  node : String
  url : String
  body : Val
  kind : CallKind
  ok : Bool

/-- Exceptions `execute` can raise. -/
inductive PyErr where
  | keyError : String → PyErr
  | attributeError : PyErr
  | typeError : PyErr
  | httpException : Nat → String → PyErr
  | networkXUnfeasible : PyErr
deriving DecidableEq

/-- Mutable run state of `execute`: the `results` and `errors` dicts, the
ghost call log, and the initial payload (read but never written). -/
structure St where
  results : List (String × Val)
  errors : List (String × String)
  calls : List CallRec
  payload : List (String × Val)

/-- State carried by a computation that may raise (`PyErr` plus the state
at the moment of the raise). -/
def stOf : Except (PyErr × St) St → St
  | .ok st => st
  | .error e => e.2

/-- The `except` block of `execute`, entered after `errors[name] = str(e)`
(state `st1`, primary failure reason `e`, resolved body `body`):

```
in_edges = list(G.in_edges(name))
fallback = None
if in_edges:
    fallback = G.edges[in_edges[0]][name].get("fallback")
if fallback: ... post(fallback, json=inputs) ...
else: raise HTTPException(502, f"{name} failed and no fallback available")
```

`G.edges[in_edges[0]]` is the edge data dict `{"fallback": fb}`, so the
further `[name]` lookup raises `KeyError(name)` unless the node is named
`"fallback"`; `.get("fallback")` then requires that attribute to be a
dict (else `AttributeError`), and `post` requires the found value to be a
string URL (else httpx raises a `TypeError`-like error).  At this program
point `errors[name]` equals `e`, so `errors[name] += ...` is modelled by
updating the binding to `e ++ ...`. -/
def fallbackPhase (svc : Svc) (G : DiGraph) (name : String) (body : Val)
    (e : String) (st1 : St) : Except (PyErr × St) St :=
  match inEdges G name with
  | [] => .error (.httpException 502 (name ++ " failed and no fallback available"), st1)
  | (_, fbAttr) :: _ =>
    match alookup [("fallback", fbAttr)] name with
    | none => .error (.keyError name, st1)
    | some fb =>
      match fb with
      | none => .error (.attributeError, st1)
      | some (Val.obj m) =>
        match alookup m "fallback" with
        | none => .error (.httpException 502 (name ++ " failed and no fallback available"), st1)
        | some fbv =>
          if fbv.truthy then
            match fbv with
            | Val.str url =>
              match svc url body with
              | .ok out =>
                .ok { st1 with results := aupd st1.results name out,
                               calls := st1.calls ++ [⟨name, url, body, .fallback, true⟩] }
              | .error e2 =>
                .ok { st1 with errors := aupd st1.errors name (e ++ "; fallback failed: " ++ e2),
                               calls := st1.calls ++ [⟨name, url, body, .fallback, false⟩] }
            | _ => .error (.typeError, st1)
          else .error (.httpException 502 (name ++ " failed and no fallback available"), st1)
      | some _ => .error (.attributeError, st1)

/-- One iteration of the `for name in nx.topological_sort(G):` loop body. -/
def procNode (svc : Svc) (G : DiGraph) (st : St) (name : String) :
    Except (PyErr × St) St :=
  match lookupNode G name with
  | some (some node) =>
    match svc node.endpoint (resolveInputs node.inputs st.results st.payload) with
    | .ok out =>
      .ok { st with results := aupd st.results name out,
                    calls := st.calls ++
                      [⟨name, node.endpoint,
                        resolveInputs node.inputs st.results st.payload, .primary, true⟩] }
    | .error e =>
      fallbackPhase svc G name (resolveInputs node.inputs st.results st.payload) e
        { st with errors := aupd st.errors name e,
                  calls := st.calls ++
                      [⟨name, node.endpoint,
                        resolveInputs node.inputs st.results st.payload, .primary, false⟩] }
  | _ => .error (.keyError "endpoint", st)

/-- The execution loop over the names emitted by the topological sort. -/
def execLoop (svc : Svc) (G : DiGraph) : List String → St → Except (PyErr × St) St
  | [], st => .ok st
  | n :: rest, st =>
    match procNode svc G st n with
    | .error e => .error e
    | .ok st' => execLoop svc G rest st'

/-- Observable outcome of a run of `execute`: the two mappings of the
`ExecuteResponse` (meaningful when `raised = none`), the ghost call log,
the payload as left after the run, and the exception, if one escaped. -/
structure Outcome where
  results : List (String × Val)
  errors : List (String × String)
  calls : List CallRec
  payload : List (String × Val)
  raised : Option PyErr

/-- `Orchestrator.execute(graph, payload)`.  The prefix emitted by the
lazy topological sort is executed; only then can `NetworkXUnfeasible`
surface (when leftover nodes witness a cycle). -/
def execute (svc : Svc) (g : GraphSpec) (payload : List (String × Val)) : Outcome :=
  let G := buildGraph g
  let pr := topoResult G
  let r := execLoop svc G pr.1 ⟨[], [], [], payload⟩
  let stF := stOf r
  let raised : Option PyErr :=
    match r with
    | .error e => some e.1
    | .ok _ => if pr.2.isEmpty then none else some PyErr.networkXUnfeasible
  ⟨stF.results, stF.errors, stF.calls, stF.payload, raised⟩

/-- Every edge endpoint is a node of the built graph. -/
def edgesOk (G : DiGraph) : Prop :=
  ∀ e ∈ G.edges, e.1.1 ∈ nodeKeys G ∧ e.1.2 ∈ nodeKeys G

/-! ### Concrete fixtures used by witnesses and counterexamples -/

/-- Service stub that always succeeds. -/
def svcOkAll : Svc := fun _ _ => .ok Val.null

/-- Two-node chain A → B. -/
def gC1 : GraphSpec :=
  ⟨[⟨"A", ⟨"uA", [], none⟩⟩, ⟨"B", ⟨"uB", [("x", "A")], none⟩⟩], [⟨"A", "B", none⟩]⟩

/-- A's endpoint fails, B's would succeed. -/
def svcC2 : Svc := fun url _ => if url = "uA" then .error "boom" else .ok (Val.str "okB")

/-- Two independent nodes, no edges. -/
def gC2 : GraphSpec := ⟨[⟨"A", ⟨"uA", [], none⟩⟩, ⟨"B", ⟨"uB", [], none⟩⟩], []⟩

/-- The primary endpoint fails; the node's configured fallback endpoint
would succeed if it were ever called. -/
def svcC3 : Svc := fun url _ => if url = "uA" then .error "boom" else .ok (Val.str "fbout")

/-- Single node carrying its own fallback_endpoint, no edges. -/
def gC3 : GraphSpec := ⟨[⟨"A", ⟨"uA", [], some "fbA"⟩⟩], []⟩

/-- Only A's endpoint answers. -/
def svcC4 : Svc := fun url _ => if url = "uA" then .ok (Val.str "okA") else .error "unused"

/-- Graph with a 2-cycle B ↔ C and a dangling edge A → D (D undeclared). -/
def gC4 : GraphSpec :=
  ⟨[⟨"A", ⟨"uA", [], none⟩⟩, ⟨"B", ⟨"uB", [], none⟩⟩, ⟨"C", ⟨"uC", [], none⟩⟩],
   [⟨"B", "C", none⟩, ⟨"C", "B", none⟩, ⟨"A", "D", none⟩]⟩

/-- Primary endpoint `pf` fails, fallback URL `fb` succeeds. -/
def svcC5 : Svc := fun url _ =>
  if url = "uA" then .ok (Val.str "aout")
  else if url = "pf" then .error "boom"
  else if url = "fb" then .ok (Val.str "fbout")
  else .error "unknown"

/-- A node literally named "fallback" whose inbound edge carries a
dict-valued fallback attribute — the only configuration in which the
source's fallback lookup finds anything. -/
def gC5 : GraphSpec :=
  ⟨[⟨"A", ⟨"uA", [], none⟩⟩, ⟨"fallback", ⟨"pf", [], none⟩⟩],
   [⟨"A", "fallback", some (Val.obj [("fallback", Val.str "fb")])⟩]⟩

/-- Primary endpoint `pf` fails and fallback URL `fb` fails too. -/
def svcC6 : Svc := fun url _ =>
  if url = "pf" then .error "boom"
  else if url = "fb" then .error "bam"
  else .ok Val.null

/-- Fresh run state. -/
def stEmpty : St := ⟨[], [], [], []⟩

/-- Run state with one upstream result and one payload entry. -/
def stC7 : St := ⟨[("A0", Val.num 1)], [], [], [("p", Val.num 7)]⟩

/-- Node whose inputs draw from an upstream result, the payload, and a
key that resolves nowhere. -/
def aC7 : NodeAttrs := ⟨"uB", [("x", "A0"), ("y", "p"), ("z", "nope")], none⟩

/-- Graph holding just the C7 node. -/
def gC7 : GraphSpec := ⟨[⟨"B", aC7⟩], []⟩

/-- Echo service: returns the request body. -/
def svcC8 : Svc := fun _ body => .ok body

/-! ### Association-list dictionary lemmas -/

theorem alookup_aupd_self {α : Type} (m : List (String × α)) (k : String) (v : α) :
    alookup (aupd m k v) k = some v := by
  induction m with
  | nil => simp [aupd, alookup]
  | cons hd tl ih =>
    obtain ⟨k0, v0⟩ := hd
    by_cases h : k0 = k
    · simp [aupd, h, alookup]
    · simp [aupd, h, alookup, ih]

theorem alookup_aupd_ne {α : Type} (m : List (String × α)) (k k' : String) (v : α)
    (h : k' ≠ k) : alookup (aupd m k v) k' = alookup m k' := by
  induction m with
  | nil => simp [aupd, alookup, Ne.symm h]
  | cons hd tl ih =>
    obtain ⟨k0, v0⟩ := hd
    by_cases hk : k0 = k
    · subst hk
      simp [aupd, alookup, Ne.symm h]
    · by_cases hk' : k0 = k'
      · simp [aupd, hk, alookup, hk', h]
      · simp [aupd, hk, alookup, hk', ih]

theorem alookup_aupd_isSome {α : Type} (m : List (String × α)) (k k' : String) (v : α)
    (h : (alookup m k').isSome) : (alookup (aupd m k v) k').isSome := by
  by_cases e : k' = k
  · subst e; simp [alookup_aupd_self]
  · rwa [alookup_aupd_ne _ _ _ _ e]

theorem alookup_eq_none {α : Type} (m : List (String × α)) (k : String)
    (h : k ∉ m.map Prod.fst) : alookup m k = none := by
  induction m with
  | nil => rfl
  | cons hd tl ih =>
    obtain ⟨k0, v0⟩ := hd
    simp only [List.map_cons, List.mem_cons, not_or] at h
    simp [alookup, Ne.symm h.1, ih h.2]

theorem alookup_foldl_aupd {α : Type} (l : List (String × α)) :
    ∀ (acc : List (String × α)) (k : String), (l.map Prod.fst).Nodup →
      alookup (l.foldl (fun m kv => aupd m kv.1 kv.2) acc) k =
        (match alookup l k with
         | some v => some v
         | none => alookup acc k) := by
  induction l with
  | nil => intro acc k h; rfl
  | cons hd tl ih =>
    intro acc k h
    obtain ⟨k0, v0⟩ := hd
    simp only [List.map_cons, List.nodup_cons] at h
    rw [List.foldl_cons, ih _ k h.2]
    by_cases e : k0 = k
    · subst e
      have hn : alookup tl k0 = none := alookup_eq_none _ _ h.1
      simp [alookup, hn, alookup_aupd_self]
    · simp [alookup, e, alookup_aupd_ne _ _ _ _ (fun x => e x.symm)]

theorem alookup_pyDict {α : Type} (l : List (String × α)) (k : String)
    (h : (l.map Prod.fst).Nodup) : alookup (pyDict l) k = alookup l k := by
  rw [pyDict, alookup_foldl_aupd l [] k h]
  cases alookup l k <;> rfl

/-! ### Topological sort (Kahn) lemmas -/

theorem topoAux_sound (G : DiGraph) :
    ∀ (fuel : Nat) (done rem t1 t2 : List String) (n : String),
      (topoAux G fuel done rem).1 = t1 ++ n :: t2 →
      ∀ u ∈ predList G n, u ∈ done ++ t1 := by
  intro fuel
  induction fuel with
  | zero =>
    intro done rem t1 t2 n h
    simp [topoAux] at h
  | succ fuel ih =>
    intro done rem t1 t2 n h
    rw [topoAux] at h
    cases hf : rem.find? (readyNode G done) with
    | none => rw [hf] at h; simp at h
    | some n0 =>
      rw [hf] at h
      simp only at h
      cases t1 with
      | nil =>
        simp only [List.nil_append, List.cons.injEq] at h
        intro u hu
        have hr := List.find?_some hf
        rw [readyNode, List.all_eq_true] at hr
        have hm := hr u (h.1 ▸ hu)
        simp only [decide_eq_true_eq] at hm
        simpa using hm
      | cons a t1' =>
        simp only [List.cons_append, List.cons.injEq] at h
        intro u hu
        have hmem := ih (done ++ [n0]) (rem.erase n0) t1' t2 n h.2 u hu
        rw [← h.1]
        simpa [List.append_assoc] using hmem

theorem topoAux_subset (G : DiGraph) :
    ∀ (fuel : Nat) (done rem : List String) (x : String),
      x ∈ (topoAux G fuel done rem).1 → x ∈ rem := by
  intro fuel
  induction fuel with
  | zero => intro done rem x h; simp [topoAux] at h
  | succ fuel ih =>
    intro done rem x h
    rw [topoAux] at h
    cases hf : rem.find? (readyNode G done) with
    | none => rw [hf] at h; simp at h
    | some n0 =>
      rw [hf] at h
      simp only [List.mem_cons] at h
      rcases h with h | h
      · exact h ▸ List.mem_of_find?_eq_some hf
      · exact List.mem_of_mem_erase (ih _ _ _ h)

theorem topoAux_nodup (G : DiGraph) :
    ∀ (fuel : Nat) (done rem : List String), rem.Nodup →
      (topoAux G fuel done rem).1.Nodup := by
  intro fuel
  induction fuel with
  | zero => intro done rem h; simp [topoAux]
  | succ fuel ih =>
    intro done rem h
    rw [topoAux]
    cases hf : rem.find? (readyNode G done) with
    | none => simp
    | some n0 =>
      simp only [List.nodup_cons]
      refine ⟨fun hmem => ?_, ih _ _ (h.erase n0)⟩
      have := topoAux_subset G fuel (done ++ [n0]) (rem.erase n0) n0 hmem
      exact (h.mem_erase_iff.mp this).1 rfl

theorem topoAux_cover (G : DiGraph) :
    ∀ (fuel : Nat) (done rem : List String) (x : String), x ∈ rem →
      x ∈ (topoAux G fuel done rem).1 ∨ x ∈ (topoAux G fuel done rem).2 := by
  intro fuel
  induction fuel with
  | zero => intro done rem x h; simp [topoAux, h]
  | succ fuel ih =>
    intro done rem x h
    rw [topoAux]
    cases hf : rem.find? (readyNode G done) with
    | none => simp [h]
    | some n0 =>
      simp only [List.mem_cons]
      by_cases e : x = n0
      · exact Or.inl (Or.inl e)
      · rcases ih (done ++ [n0]) (rem.erase n0) x ((List.mem_erase_of_ne e).mpr h) with h' | h'
        · exact Or.inl (Or.inr h')
        · exact Or.inr h'

theorem mem_predList (G : DiGraph) (u v : String) (fb : Option Val)
    (hedge : ((u, v), fb) ∈ G.edges) : u ∈ predList G v := by
  rw [predList, List.mem_map]
  refine ⟨(u, fb), ?_, rfl⟩
  rw [inEdges, List.mem_filterMap]
  exact ⟨((u, v), fb), hedge, by simp⟩

theorem topo_edge_before (G : DiGraph) (u v : String) (fb : Option Val)
    (hedge : ((u, v), fb) ∈ G.edges)
    (hv : v ∈ (topoResult G).1) :
    ∃ t1 t2, (topoResult G).1 = t1 ++ v :: t2 ∧ u ∈ t1 := by
  obtain ⟨t1, t2, ht⟩ := List.append_of_mem hv
  refine ⟨t1, t2, ht, ?_⟩
  have hu := topoAux_sound G (nodeKeys G).length [] (nodeKeys G) t1 t2 v
    (by rw [topoResult] at ht; exact ht) u (mem_predList G u v fb hedge)
  simpa using hu

/-! ### Graph construction invariants -/

theorem map_fst_replace {α : Type} (l : List (String × α)) (nm : String) (x : α) :
    (l.map (fun p => if p.1 = nm then (nm, x) else p)).map Prod.fst = l.map Prod.fst := by
  induction l with
  | nil => rfl
  | cons hd tl ih =>
    by_cases h : hd.1 = nm
    · simp [h, ih]
    · simp [h, ih]

theorem nodeKeys_addNodeSpec (G : DiGraph) (n : NodeSpec) :
    nodeKeys (addNodeSpec G n) =
      if G.nodes.any (fun p => p.1 = n.name) then nodeKeys G
      else nodeKeys G ++ [n.name] := by
  by_cases h : G.nodes.any (fun p => p.1 = n.name)
  · unfold addNodeSpec
    rw [if_pos h, if_pos h]
    exact map_fst_replace G.nodes n.name (some n.attrs)
  · unfold addNodeSpec
    rw [if_neg h, if_neg h]
    simp [nodeKeys]

theorem nodeKeys_ensureNode (G : DiGraph) (nm : String) :
    nodeKeys (ensureNode G nm) =
      if G.nodes.any (fun p => p.1 = nm) then nodeKeys G
      else nodeKeys G ++ [nm] := by
  by_cases h : G.nodes.any (fun p => p.1 = nm)
  · unfold ensureNode
    rw [if_pos h, if_pos h]
  · unfold ensureNode
    rw [if_neg h, if_neg h]
    simp [nodeKeys]

theorem not_any_of_not_mem_keys (G : DiGraph) (nm : String)
    (h : ¬ G.nodes.any (fun p => p.1 = nm)) : nm ∉ nodeKeys G := by
  intro hmem
  rw [nodeKeys, List.mem_map] at hmem
  obtain ⟨p, hp, he⟩ := hmem
  exact h (List.any_eq_true.mpr ⟨p, hp, by simp [he]⟩)

theorem nodup_addNodeSpec (G : DiGraph) (n : NodeSpec)
    (h : (nodeKeys G).Nodup) : (nodeKeys (addNodeSpec G n)).Nodup := by
  rw [nodeKeys_addNodeSpec]
  by_cases hc : G.nodes.any (fun p => p.1 = n.name)
  · rwa [if_pos hc]
  · rw [if_neg hc]
    rw [List.nodup_append]
    refine ⟨h, List.nodup_singleton _, ?_⟩
    intro a ha hb
    simp only [List.mem_singleton] at hb
    exact not_any_of_not_mem_keys G n.name hc (hb ▸ ha)

theorem nodup_ensureNode (G : DiGraph) (nm : String)
    (h : (nodeKeys G).Nodup) : (nodeKeys (ensureNode G nm)).Nodup := by
  rw [nodeKeys_ensureNode]
  by_cases hc : G.nodes.any (fun p => p.1 = nm)
  · rwa [if_pos hc]
  · rw [if_neg hc]
    rw [List.nodup_append]
    refine ⟨h, List.nodup_singleton _, ?_⟩
    intro a ha hb
    simp only [List.mem_singleton] at hb
    exact not_any_of_not_mem_keys G nm hc (hb ▸ ha)

theorem nodeKeys_addEdge (G : DiGraph) (e : EdgeSpec) :
    nodeKeys (addEdge G e) = nodeKeys (ensureNode (ensureNode G e.src) e.dst) := by
  rw [addEdge, nodeKeys, nodeKeys]

theorem nodup_addEdge (G : DiGraph) (e : EdgeSpec)
    (h : (nodeKeys G).Nodup) : (nodeKeys (addEdge G e)).Nodup := by
  rw [nodeKeys_addEdge]
  exact nodup_ensureNode _ _ (nodup_ensureNode _ _ h)

theorem nodup_buildGraph (g : GraphSpec) : (nodeKeys (buildGraph g)).Nodup := by
  rw [buildGraph]
  have h1 : ∀ (l : List NodeSpec) (G : DiGraph), (nodeKeys G).Nodup →
      (nodeKeys (l.foldl addNodeSpec G)).Nodup := by
    intro l
    induction l with
    | nil => intro G h; exact h
    | cons hd tl ih => intro G h; exact ih _ (nodup_addNodeSpec _ _ h)
  have h2 : ∀ (l : List EdgeSpec) (G : DiGraph), (nodeKeys G).Nodup →
      (nodeKeys (l.foldl addEdge G)).Nodup := by
    intro l
    induction l with
    | nil => intro G h; exact h
    | cons hd tl ih => intro G h; exact ih _ (nodup_addEdge _ _ h)
  exact h2 _ _ (h1 _ _ (by simp [nodeKeys]))

theorem mem_nodeKeys_mono_addNodeSpec (G : DiGraph) (n : NodeSpec) (x : String)
    (h : x ∈ nodeKeys G) : x ∈ nodeKeys (addNodeSpec G n) := by
  rw [nodeKeys_addNodeSpec]
  by_cases hc : G.nodes.any (fun p => p.1 = n.name)
  · rwa [if_pos hc]
  · rw [if_neg hc]
    exact List.mem_append_left _ h

theorem mem_nodeKeys_mono_ensureNode (G : DiGraph) (nm x : String)
    (h : x ∈ nodeKeys G) : x ∈ nodeKeys (ensureNode G nm) := by
  rw [nodeKeys_ensureNode]
  by_cases hc : G.nodes.any (fun p => p.1 = nm)
  · rwa [if_pos hc]
  · rw [if_neg hc]
    exact List.mem_append_left _ h

theorem mem_nodeKeys_ensureNode (G : DiGraph) (nm : String) :
    nm ∈ nodeKeys (ensureNode G nm) := by
  rw [nodeKeys_ensureNode]
  by_cases hc : G.nodes.any (fun p => p.1 = nm)
  · rw [if_pos hc]
    rw [List.any_eq_true] at hc
    obtain ⟨p, hp, he⟩ := hc
    simp only [decide_eq_true_eq] at he
    exact he ▸ List.mem_map_of_mem Prod.fst hp
  · rw [if_neg hc]
    exact List.mem_append_right _ (List.mem_singleton.mpr rfl)

theorem edgesOk_addNodeSpec (G : DiGraph) (n : NodeSpec)
    (h : edgesOk G) : edgesOk (addNodeSpec G n) := by
  intro e he
  have he' : e ∈ G.edges := he
  exact ⟨mem_nodeKeys_mono_addNodeSpec _ _ _ (h e he').1,
         mem_nodeKeys_mono_addNodeSpec _ _ _ (h e he').2⟩

theorem edges_ensureNode (G : DiGraph) (nm : String) :
    (ensureNode G nm).edges = G.edges := rfl

theorem edgesOk_addEdge (G : DiGraph) (ed : EdgeSpec)
    (h : edgesOk G) : edgesOk (addEdge G ed) := by
  intro e he
  have hsrc : ed.src ∈ nodeKeys (addEdge G ed) := by
    rw [nodeKeys_addEdge]
    exact mem_nodeKeys_mono_ensureNode _ _ _ (mem_nodeKeys_ensureNode _ _)
  have hdst : ed.dst ∈ nodeKeys (addEdge G ed) := by
    rw [nodeKeys_addEdge]
    exact mem_nodeKeys_ensureNode _ _
  have hold : ∀ e' ∈ G.edges, e'.1.1 ∈ nodeKeys (addEdge G ed) ∧
      e'.1.2 ∈ nodeKeys (addEdge G ed) := by
    intro e' he'
    rw [nodeKeys_addEdge]
    exact ⟨mem_nodeKeys_mono_ensureNode _ _ _ (mem_nodeKeys_mono_ensureNode _ _ _ (h e' he').1),
           mem_nodeKeys_mono_ensureNode _ _ _ (mem_nodeKeys_mono_ensureNode _ _ _ (h e' he').2)⟩
  have he' : e ∈ (addEdge G ed).edges := he
  rw [addEdge] at he'
  simp only [edges_ensureNode] at he'
  by_cases hc : G.edges.any (fun p => p.1 = (ed.src, ed.dst))
  · rw [if_pos hc, List.mem_map] at he'
    obtain ⟨p, hp, hpe⟩ := he'
    by_cases hpk : p.1 = (ed.src, ed.dst)
    · rw [if_pos hpk] at hpe
      subst hpe
      exact ⟨hsrc, hdst⟩
    · rw [if_neg hpk] at hpe
      subst hpe
      exact hold p hp
  · rw [if_neg hc, List.mem_append] at he'
    rcases he' with hmem | hmem
    · exact hold e hmem
    · simp only [List.mem_singleton] at hmem
      subst hmem
      exact ⟨hsrc, hdst⟩

theorem edgesOk_buildGraph (g : GraphSpec) : edgesOk (buildGraph g) := by
  rw [buildGraph]
  have h1 : ∀ (l : List NodeSpec) (G : DiGraph), edgesOk G →
      edgesOk (l.foldl addNodeSpec G) := by
    intro l
    induction l with
    | nil => intro G h; exact h
    | cons hd tl ih => intro G h; exact ih _ (edgesOk_addNodeSpec _ _ h)
  have h2 : ∀ (l : List EdgeSpec) (G : DiGraph), edgesOk G →
      edgesOk (l.foldl addEdge G) := by
    intro l
    induction l with
    | nil => intro G h; exact h
    | cons hd tl ih => intro G h; exact ih _ (edgesOk_addEdge _ _ h)
  exact h2 _ _ (h1 _ _ (by intro e he; cases he))

/-! ### Execution-state lemmas -/

/-- Exhaustive shape analysis of the `except` block: it either raises
(leaving the state `st1` untouched), or performs a fallback call that
succeeds, or performs a fallback call that fails. -/
theorem fallbackPhase_cases (svc : Svc) (G : DiGraph) (name : String)
    (body : Val) (e : String) (st1 : St) :
    (∃ err, fallbackPhase svc G name body e st1 = .error (err, st1)) ∨
    (∃ url out, svc url body = .ok out ∧
      fallbackPhase svc G name body e st1 =
        .ok { st1 with results := aupd st1.results name out,
                       calls := st1.calls ++ [⟨name, url, body, .fallback, true⟩] }) ∨
    (∃ url e2, svc url body = .error e2 ∧
      fallbackPhase svc G name body e st1 =
        .ok { st1 with errors := aupd st1.errors name (e ++ "; fallback failed: " ++ e2),
                       calls := st1.calls ++ [⟨name, url, body, .fallback, false⟩] }) := by
  unfold fallbackPhase
  repeat' split
  all_goals first
    | exact Or.inl ⟨_, rfl⟩
    | (rename_i hs
       exact Or.inr (Or.inl ⟨_, _, hs, rfl⟩))
    | (rename_i hs
       exact Or.inr (Or.inr ⟨_, _, hs, rfl⟩))

/-- Exhaustive shape analysis of one loop iteration. -/
theorem procNode_cases (svc : Svc) (G : DiGraph) (st : St) (n : String) :
    ((∀ node, lookupNode G n ≠ some (some node)) ∧
      procNode svc G st n = .error (.keyError "endpoint", st)) ∨
    (∃ node out, lookupNode G n = some (some node) ∧
      svc node.endpoint (resolveInputs node.inputs st.results st.payload) = .ok out ∧
      procNode svc G st n = .ok { st with
        results := aupd st.results n out,
        calls := st.calls ++
          [⟨n, node.endpoint, resolveInputs node.inputs st.results st.payload, .primary, true⟩] }) ∨
    (∃ node e, lookupNode G n = some (some node) ∧
      svc node.endpoint (resolveInputs node.inputs st.results st.payload) = .error e ∧
      procNode svc G st n = fallbackPhase svc G n
        (resolveInputs node.inputs st.results st.payload) e
        { st with errors := aupd st.errors n e,
                  calls := st.calls ++
          [⟨n, node.endpoint, resolveInputs node.inputs st.results st.payload, .primary, false⟩] }) := by
  unfold procNode
  repeat' split
  all_goals first
    | (refine Or.inl ⟨?_, rfl⟩
       rename_i hno
       exact hno)
    | exact Or.inr (Or.inl ⟨_, _, by assumption, by assumption, rfl⟩)
    | exact Or.inr (Or.inr ⟨_, _, by assumption, by assumption, rfl⟩)

theorem fallbackPhase_stOf_spec (svc : Svc) (G : DiGraph) (name : String)
    (body : Val) (e : String) (st1 : St) :
    (stOf (fallbackPhase svc G name body e st1)).payload = st1.payload ∧
    (∃ ext, (stOf (fallbackPhase svc G name body e st1)).calls = st1.calls ++ ext ∧
      ∀ c ∈ ext, c.node = name) ∧
    (∀ m, (alookup st1.results m).isSome →
      (alookup (stOf (fallbackPhase svc G name body e st1)).results m).isSome) ∧
    (∀ m, (alookup st1.errors m).isSome →
      (alookup (stOf (fallbackPhase svc G name body e st1)).errors m).isSome) := by
  rcases fallbackPhase_cases svc G name body e st1 with ⟨err, h⟩ | ⟨url, out, hs, h⟩ |
    ⟨url, e2, hs, h⟩
  · rw [h]
    exact ⟨rfl, ⟨[], by simp [stOf], by simp⟩, fun m hm => hm, fun m hm => hm⟩
  · rw [h]
    refine ⟨rfl, ⟨[⟨name, url, body, .fallback, true⟩], rfl, by simp⟩, ?_, fun m hm => hm⟩
    intro m hm
    exact alookup_aupd_isSome _ _ _ _ hm
  · rw [h]
    refine ⟨rfl, ⟨[⟨name, url, body, .fallback, false⟩], rfl, by simp⟩, fun m hm => hm, ?_⟩
    intro m hm
    exact alookup_aupd_isSome _ _ _ _ hm

theorem procNode_stOf_spec (svc : Svc) (G : DiGraph) (st : St) (n : String) :
    (stOf (procNode svc G st n)).payload = st.payload ∧
    (∃ ext, (stOf (procNode svc G st n)).calls = st.calls ++ ext ∧
      ∀ c ∈ ext, c.node = n) ∧
    (∀ m, (alookup st.results m).isSome →
      (alookup (stOf (procNode svc G st n)).results m).isSome) ∧
    (∀ m, (alookup st.errors m).isSome →
      (alookup (stOf (procNode svc G st n)).errors m).isSome) := by
  rcases procNode_cases svc G st n with ⟨hno, h⟩ | ⟨node, out, hl, hs, h⟩ | ⟨node, e, hl, hs, h⟩
  · rw [h]
    exact ⟨rfl, ⟨[], by simp [stOf], by simp⟩, fun m hm => hm, fun m hm => hm⟩
  · rw [h]
    refine ⟨rfl,
      ⟨[⟨n, node.endpoint, resolveInputs node.inputs st.results st.payload, .primary, true⟩],
        rfl, by simp⟩, ?_, fun m hm => hm⟩
    intro m hm
    exact alookup_aupd_isSome _ _ _ _ hm
  · rw [h]
    obtain ⟨hp, ⟨ext, hc, ho⟩, hr, he⟩ := fallbackPhase_stOf_spec svc G n
      (resolveInputs node.inputs st.results st.payload) e
      { st with errors := aupd st.errors n e,
                calls := st.calls ++
          [⟨n, node.endpoint, resolveInputs node.inputs st.results st.payload, .primary, false⟩] }
    refine ⟨hp,
      ⟨⟨n, node.endpoint, resolveInputs node.inputs st.results st.payload, .primary, false⟩ :: ext,
        ?_, ?_⟩, hr, ?_⟩
    · rw [hc]
      simp
    · intro c hcm
      rcases List.mem_cons.mp hcm with h1 | h1
      · rw [h1]
      · exact ho c h1
    · intro m hm
      exact he m (alookup_aupd_isSome _ _ _ _ hm)

theorem procNode_ok_spec (svc : Svc) (G : DiGraph) (st : St) (n : String) (st' : St)
    (h : procNode svc G st n = .ok st') :
    ∃ ext, st'.calls = st.calls ++ ext ∧ (∀ c ∈ ext, c.node = n) ∧
      st'.payload = st.payload ∧
      ((alookup st'.results n).isSome ∨ (alookup st'.errors n).isSome) ∧
      (∀ m, (alookup st'.errors m).isSome ↔
        ((alookup st.errors m).isSome ∨
          ∃ c ∈ ext, c.node = m ∧ c.kind = CallKind.primary ∧ c.ok = false)) ∧
      (∀ m, (alookup st.results m).isSome → (alookup st'.results m).isSome) := by
  rcases procNode_cases svc G st n with ⟨hno, hc⟩ | ⟨node, out, hl, hs, hc⟩ | ⟨node, e, hl, hs, hc⟩
  · rw [hc] at h
    cases h
  · rw [hc] at h
    injection h with h
    subst h
    refine ⟨[⟨n, node.endpoint, resolveInputs node.inputs st.results st.payload, .primary, true⟩],
      rfl, by simp, rfl, Or.inl (by simp [alookup_aupd_self]), ?_, ?_⟩
    · intro m
      constructor
      · intro hm
        exact Or.inl hm
      · intro hm
        rcases hm with hm | ⟨c, hcm, _, _, hko⟩
        · exact hm
        · simp at hcm
          subst hcm
          simp at hko
    · intro m hm
      exact alookup_aupd_isSome _ _ _ _ hm
  · rcases fallbackPhase_cases svc G n (resolveInputs node.inputs st.results st.payload) e
      { st with errors := aupd st.errors n e,
                calls := st.calls ++
          [⟨n, node.endpoint, resolveInputs node.inputs st.results st.payload, .primary, false⟩] }
      with ⟨err, hf⟩ | ⟨url, out, hfs, hf⟩ | ⟨url, e2, hfs, hf⟩
    · rw [hc, hf] at h
      cases h
    · rw [hc, hf] at h
      injection h with h
      subst h
      refine ⟨[⟨n, node.endpoint, resolveInputs node.inputs st.results st.payload, .primary, false⟩,
        ⟨n, url, resolveInputs node.inputs st.results st.payload, .fallback, true⟩],
        by simp, by simp, rfl, Or.inl (by simp [alookup_aupd_self]), ?_, ?_⟩
      · intro m
        by_cases hm : m = n
        · subst hm
          simp only [alookup_aupd_self, Option.isSome_some, true_iff]
          refine Or.inr ⟨_, List.mem_cons_self _ _, rfl, rfl, rfl⟩
        · rw [alookup_aupd_ne _ _ _ _ hm]
          constructor
          · intro h1
            exact Or.inl h1
          · intro h1
            rcases h1 with h1 | ⟨c, hcm, hnode, _, _⟩
            · exact h1
            · rcases List.mem_cons.mp hcm with h2 | h2
              · subst h2
                exact absurd hnode.symm hm
              · simp at h2
                subst h2
                exact absurd hnode.symm hm
      · intro m hm
        exact alookup_aupd_isSome _ _ _ _ hm
    · rw [hc, hf] at h
      injection h with h
      subst h
      refine ⟨[⟨n, node.endpoint, resolveInputs node.inputs st.results st.payload, .primary, false⟩,
        ⟨n, url, resolveInputs node.inputs st.results st.payload, .fallback, false⟩],
        by simp, by simp, rfl, Or.inr (by simp [alookup_aupd_self]), ?_, fun m hm => hm⟩
      intro m
      by_cases hm : m = n
      · subst hm
        simp only [alookup_aupd_self, Option.isSome_some, true_iff]
        refine Or.inr ⟨_, List.mem_cons_self _ _, rfl, rfl, rfl⟩
      · rw [alookup_aupd_ne _ _ _ _ hm, alookup_aupd_ne _ _ _ _ hm]
        constructor
        · intro h1
          exact Or.inl h1
        · intro h1
          rcases h1 with h1 | ⟨c, hcm, hnode, _, _⟩
          · exact h1
          · rcases List.mem_cons.mp hcm with h2 | h2
            · subst h2
              exact absurd hnode.symm hm
            · simp at h2
              subst h2
              exact absurd hnode.symm hm

theorem execLoop_append (svc : Svc) (G : DiGraph) (l1 l2 : List String) (st : St) :
    execLoop svc G (l1 ++ l2) st =
      (match execLoop svc G l1 st with
       | .error e => .error e
       | .ok st1 => execLoop svc G l2 st1) := by
  induction l1 generalizing st with
  | nil => rfl
  | cons n rest ih =>
    simp only [List.cons_append, execLoop]
    cases procNode svc G st n with
    | error e => rfl
    | ok st' => exact ih st'

theorem execLoop_stOf_spec (svc : Svc) (G : DiGraph) :
    ∀ (names : List String) (st : St),
    (stOf (execLoop svc G names st)).payload = st.payload ∧
    (∃ ext, (stOf (execLoop svc G names st)).calls = st.calls ++ ext ∧
      ∀ c ∈ ext, c.node ∈ names) ∧
    (∀ m, (alookup st.results m).isSome →
      (alookup (stOf (execLoop svc G names st)).results m).isSome) ∧
    (∀ m, (alookup st.errors m).isSome →
      (alookup (stOf (execLoop svc G names st)).errors m).isSome) := by
  intro names
  induction names with
  | nil =>
    intro st
    exact ⟨rfl, ⟨[], by simp [execLoop, stOf], by simp⟩, fun m hm => hm, fun m hm => hm⟩
  | cons n rest ih =>
    intro st
    obtain ⟨hp1, ⟨ext1, hc1, ho1⟩, hr1, he1⟩ := procNode_stOf_spec svc G st n
    cases hpn : procNode svc G st n with
    | error err =>
      have hst : stOf (execLoop svc G (n :: rest) st) = stOf (procNode svc G st n) := by
        simp only [execLoop, hpn]
      rw [hst]
      refine ⟨hp1, ⟨ext1, hc1, ?_⟩, hr1, he1⟩
      intro c hc
      rw [ho1 c hc]
      exact List.mem_cons_self _ _
    | ok st1 =>
      have hst : execLoop svc G (n :: rest) st = execLoop svc G rest st1 := by
        simp only [execLoop, hpn]
      have hs1 : stOf (procNode svc G st n) = st1 := by rw [hpn]; rfl
      rw [hs1] at hp1 hc1 hr1 he1
      obtain ⟨hp2, ⟨ext2, hc2, ho2⟩, hr2, he2⟩ := ih st1
      rw [hst]
      refine ⟨hp2.trans hp1, ⟨ext1 ++ ext2, ?_, ?_⟩, ?_, ?_⟩
      · rw [hc2, hc1, List.append_assoc]
      · intro c hc
        rcases List.mem_append.mp hc with h | h
        · rw [ho1 c h]
          exact List.mem_cons_self _ _
        · exact List.mem_cons_of_mem _ (ho2 c h)
      · intro m hm
        exact hr2 m (hr1 m hm)
      · intro m hm
        exact he2 m (he1 m hm)

theorem execLoop_ok_spec (svc : Svc) (G : DiGraph) :
    ∀ (names : List String) (st st' : St),
    execLoop svc G names st = .ok st' →
    ∃ ext, st'.calls = st.calls ++ ext ∧ (∀ c ∈ ext, c.node ∈ names) ∧
      st'.payload = st.payload ∧
      (∀ n ∈ names, (alookup st'.results n).isSome ∨ (alookup st'.errors n).isSome) ∧
      (∀ m, (alookup st'.errors m).isSome ↔
        ((alookup st.errors m).isSome ∨
          ∃ c ∈ ext, c.node = m ∧ c.kind = CallKind.primary ∧ c.ok = false)) ∧
      (∀ m, (alookup st.results m).isSome → (alookup st'.results m).isSome) := by
  intro names
  induction names with
  | nil =>
    intro st st' h
    injection h with h
    subst h
    refine ⟨[], by simp, by simp, rfl, by simp, ?_, fun m hm => hm⟩
    intro m
    simp
  | cons n rest ih =>
    intro st st' h
    rw [execLoop] at h
    cases hpn : procNode svc G st n with
    | error err => rw [hpn] at h; cases h
    | ok st1 =>
      rw [hpn] at h
      simp only at h
      obtain ⟨ext1, hc1, ho1, hp1, hcov1, hiff1, hr1⟩ := procNode_ok_spec svc G st n st1 hpn
      obtain ⟨ext2, hc2, ho2, hp2, hcov2, hiff2, hr2⟩ := ih st1 st' h
      have herr1 : ∀ m, (alookup st1.errors m).isSome → (alookup st'.errors m).isSome := by
        intro m hm
        exact (hiff2 m).mpr (Or.inl hm)
      refine ⟨ext1 ++ ext2, ?_, ?_, hp2.trans hp1, ?_, ?_, ?_⟩
      · rw [hc2, hc1, List.append_assoc]
      · intro c hc
        rcases List.mem_append.mp hc with h1 | h1
        · rw [ho1 c h1]
          exact List.mem_cons_self _ _
        · exact List.mem_cons_of_mem _ (ho2 c h1)
      · intro x hx
        rcases List.mem_cons.mp hx with h1 | h1
        · subst h1
          rcases hcov1 with h2 | h2
          · exact Or.inl (hr2 x h2)
          · exact Or.inr (herr1 x h2)
        · exact hcov2 x h1
      · intro m
        rw [hiff2 m, hiff1 m]
        constructor
        · intro h1
          rcases h1 with (h1 | ⟨c, hcm, hrest⟩) | ⟨c, hcm, hrest⟩
          · exact Or.inl h1
          · exact Or.inr ⟨c, List.mem_append_left _ hcm, hrest⟩
          · exact Or.inr ⟨c, List.mem_append_right _ hcm, hrest⟩
        · intro h1
          rcases h1 with h1 | ⟨c, hcm, hrest⟩
          · exact Or.inl (Or.inl h1)
          · rcases List.mem_append.mp hcm with h2 | h2
            · exact Or.inl (Or.inr ⟨c, h2, hrest⟩)
            · exact Or.inr ⟨c, h2, hrest⟩
      · intro m hm
        exact hr2 m (hr1 m hm)

/-! ### Input-resolution lemmas -/

theorem map_fst_resolve (inputs : List (String × String))
    (results payload : List (String × Val)) :
    ((inputs.map (fun kv => (kv.1, resolveKey results payload kv.2))).map Prod.fst) =
      inputs.map Prod.fst := by
  induction inputs with
  | nil => rfl
  | cons hd tl ih => simp [ih]

theorem alookup_map_resolveKey (inputs : List (String × String))
    (results payload : List (String × Val)) (k v : String)
    (hnd : (inputs.map Prod.fst).Nodup) (hkv : (k, v) ∈ inputs) :
    alookup (inputs.map (fun kv => (kv.1, resolveKey results payload kv.2))) k =
      some (resolveKey results payload v) := by
  induction inputs with
  | nil => cases hkv
  | cons hd tl ih =>
    obtain ⟨k0, v0⟩ := hd
    simp only [List.map_cons, List.nodup_cons] at hnd
    rcases List.mem_cons.mp hkv with h | h
    · injection h with h1 h2
      subst h1
      subst h2
      simp [alookup]
    · by_cases e : k0 = k
      · exfalso
        subst e
        have hmem : k0 ∈ tl.map Prod.fst := by
          have := List.mem_map_of_mem Prod.fst h
          simpa using this
        exact hnd.1 hmem
      · simp only [List.map_cons, alookup, e, if_false]
        exact ih hnd.2 h

theorem alookup_resolveFields (inputs : List (String × String))
    (results payload : List (String × Val)) (k v : String)
    (hnd : (inputs.map Prod.fst).Nodup) (hkv : (k, v) ∈ inputs) :
    alookup (resolveFields inputs results payload) k =
      some (resolveKey results payload v) := by
  rw [resolveFields, alookup_pyDict]
  · exact alookup_map_resolveKey inputs results payload k v hnd hkv
  · rw [map_fst_resolve]
    exact hnd

/-! ### Projections of `execute` -/

theorem execute_results (svc : Svc) (g : GraphSpec) (payload : List (String × Val)) :
    (execute svc g payload).results =
      (stOf (execLoop svc (buildGraph g) (topoResult (buildGraph g)).1
        ⟨[], [], [], payload⟩)).results := rfl

theorem execute_errors (svc : Svc) (g : GraphSpec) (payload : List (String × Val)) :
    (execute svc g payload).errors =
      (stOf (execLoop svc (buildGraph g) (topoResult (buildGraph g)).1
        ⟨[], [], [], payload⟩)).errors := rfl

theorem execute_calls (svc : Svc) (g : GraphSpec) (payload : List (String × Val)) :
    (execute svc g payload).calls =
      (stOf (execLoop svc (buildGraph g) (topoResult (buildGraph g)).1
        ⟨[], [], [], payload⟩)).calls := rfl

theorem execute_payload_eq (svc : Svc) (g : GraphSpec) (payload : List (String × Val)) :
    (execute svc g payload).payload =
      (stOf (execLoop svc (buildGraph g) (topoResult (buildGraph g)).1
        ⟨[], [], [], payload⟩)).payload := rfl

theorem execute_raised (svc : Svc) (g : GraphSpec) (payload : List (String × Val)) :
    (execute svc g payload).raised =
      (match execLoop svc (buildGraph g) (topoResult (buildGraph g)).1
          ⟨[], [], [], payload⟩ with
       | .error e => some e.1
       | .ok _ => if (topoResult (buildGraph g)).2.isEmpty then none
                  else some PyErr.networkXUnfeasible) := rfl

/-! ### Claim theorems -/

/-- C1: for every graph accepted as a valid DAG (the lazy topological
sort orders all nodes) and every edge u→v, the sequential executor never
issues a call for v before all calls for u: the call log splits into a
prefix free of v-calls followed by a suffix free of u-calls, and if v
was dispatched at all then u already holds a terminal record in the
final results or errors mapping. -/
theorem claim1_dispatch_after_predecessors (svc : Svc) (g : GraphSpec)
    (payload : List (String × Val)) (u v : String) (fb : Option Val)
    (hdag : (topoResult (buildGraph g)).2 = [])
    (hedge : ((u, v), fb) ∈ (buildGraph g).edges) :
    ∃ pre post, (execute svc g payload).calls = pre ++ post ∧
      (∀ c ∈ pre, c.node ≠ v) ∧ (∀ c ∈ post, c.node ≠ u) ∧
      ((∃ c ∈ (execute svc g payload).calls, c.node = v) →
        ((alookup (execute svc g payload).results u).isSome ∨
         (alookup (execute svc g payload).errors u).isSome)) := by
  have hv : v ∈ (topoResult (buildGraph g)).1 := by
    have hvk : v ∈ nodeKeys (buildGraph g) := (edgesOk_buildGraph g ((u, v), fb) hedge).2
    have hcov := topoAux_cover (buildGraph g) (nodeKeys (buildGraph g)).length []
      (nodeKeys (buildGraph g)) v hvk
    rcases hcov with h | h
    · exact h
    · rw [show (topoAux (buildGraph g) (nodeKeys (buildGraph g)).length []
        (nodeKeys (buildGraph g))).2 = (topoResult (buildGraph g)).2 from rfl, hdag] at h
      cases h
  obtain ⟨t1, t2, ht, hut1⟩ := topo_edge_before (buildGraph g) u v fb hedge hv
  have hnd : ((topoResult (buildGraph g)).1).Nodup :=
    topoAux_nodup (buildGraph g) _ [] _ (nodup_buildGraph g)
  rw [ht] at hnd
  have hdisj := (List.nodup_append.mp hnd).2.2
  have hvnt1 : v ∉ t1 := fun hm => hdisj hm (List.mem_cons_self _ _)
  have hunt2 : u ∉ v :: t2 := hdisj hut1
  have hsplit := execLoop_append svc (buildGraph g) t1 (v :: t2)
    (⟨[], [], [], payload⟩ : St)
  rw [← ht] at hsplit
  cases hrun : execLoop svc (buildGraph g) t1 (⟨[], [], [], payload⟩ : St) with
  | error err =>
    have hcalls : (execute svc g payload).calls =
        (stOf (execLoop svc (buildGraph g) t1 (⟨[], [], [], payload⟩ : St))).calls := by
      rw [execute_calls, hsplit, hrun]
    obtain ⟨_, ⟨ext1, hc1, ho1⟩, _, _⟩ :=
      execLoop_stOf_spec svc (buildGraph g) t1 (⟨[], [], [], payload⟩ : St)
    refine ⟨(stOf (execLoop svc (buildGraph g) t1 (⟨[], [], [], payload⟩ : St))).calls, [],
      by rw [hcalls, List.append_nil], ?_, by simp, ?_⟩
    · intro c hc
      rw [hc1] at hc
      have hmem : c.node ∈ t1 := ho1 c (by simpa using hc)
      exact fun he => hvnt1 (he ▸ hmem)
    · rintro ⟨c, hcm, hcv⟩
      exfalso
      rw [hcalls, hc1] at hcm
      have hmem : c.node ∈ t1 := ho1 c (by simpa using hcm)
      rw [hcv] at hmem
      exact hvnt1 hmem
  | ok st1 =>
    have hloop : execLoop svc (buildGraph g) (topoResult (buildGraph g)).1
        (⟨[], [], [], payload⟩ : St) = execLoop svc (buildGraph g) (v :: t2) st1 := by
      rw [hsplit, hrun]
    obtain ⟨ext1, hc1, ho1, hp1, hcov1, hiff1, hr1⟩ :=
      execLoop_ok_spec svc (buildGraph g) t1 (⟨[], [], [], payload⟩ : St) st1 hrun
    obtain ⟨hp2, ⟨ext2, hc2, ho2⟩, hr2, he2⟩ :=
      execLoop_stOf_spec svc (buildGraph g) (v :: t2) st1
    have hcalls : (execute svc g payload).calls = st1.calls ++ ext2 := by
      rw [execute_calls, hloop, hc2]
    refine ⟨st1.calls, ext2, hcalls, ?_, ?_, ?_⟩
    · intro c hc
      rw [hc1] at hc
      have hmem : c.node ∈ t1 := ho1 c (by simpa using hc)
      exact fun he => hvnt1 (he ▸ hmem)
    · intro c hc he
      exact hunt2 (he ▸ ho2 c hc)
    · intro _
      rcases hcov1 u hut1 with h1 | h1
      · left
        rw [execute_results, hloop]
        exact hr2 u h1
      · right
        rw [execute_errors, hloop]
        exact he2 u h1

/-- Witness for C1 at the concrete chain A → B with an all-success
service: both hypotheses hold and the ordering conclusion follows. -/
theorem claim1_witness :
    ((topoResult (buildGraph gC1)).2 = [] ∧
      ((("A", "B"), (none : Option Val)) ∈ (buildGraph gC1).edges)) ∧
    (∃ pre post, (execute svcOkAll gC1 []).calls = pre ++ post ∧
      (∀ c ∈ pre, c.node ≠ "B") ∧ (∀ c ∈ post, c.node ≠ "A") ∧
      ((∃ c ∈ (execute svcOkAll gC1 []).calls, c.node = "B") →
        ((alookup (execute svcOkAll gC1 []).results "A").isSome ∨
         (alookup (execute svcOkAll gC1 []).errors "A").isSome))) :=
  ⟨⟨by decide, List.mem_singleton.mpr rfl⟩,
   claim1_dispatch_after_predecessors svcOkAll gC1 [] "A" "B" none (by decide)
     (List.mem_singleton.mpr rfl)⟩

/-- C2 counterexample: two independent nodes A and B, A's primary call
fails and no fallback exists.  Contrary to the claim, `execute` raises
HTTPException 502 and the independent node B is never called; no results
are returned (raised ≠ none), so sibling branches are aborted. -/
theorem claim2_counterexample :
    (execute svcC2 gC2 []).raised =
      some (.httpException 502 "A failed and no fallback available") ∧
    (execute svcC2 gC2 []).calls.length = 1 ∧
    (∀ c ∈ (execute svcC2 gC2 []).calls, c.node = "A") ∧
    (execute svcC2 gC2 []).results = [] ∧
    (execute svcC2 gC2 []).errors = [("A", "boom")] := by
  refine ⟨rfl, rfl, ?_, rfl, rfl⟩
  intro c hc
  have : (execute svcC2 gC2 []).calls =
      [⟨"A", "uA", Val.obj [], .primary, false⟩] := rfl
  rw [this] at hc
  rw [List.mem_singleton.mp hc]

/-- C2 (amended): when a node's primary call fails and the node has no
inbound edges, no fallback is found and `execute` raises HTTPException
502 for that node; `errors[name]` is set and `results[name]` stays
absent in the internal state, but the run aborts: the remaining nodes of
the processing order — dependent or independent — are never dispatched
and no results are returned to the caller. -/
theorem claim2_amended_abort_on_no_fallback (svc : Svc) (g : GraphSpec)
    (payload : List (String × Val)) (l1 l2 : List String) (n : String)
    (st1 : St) (a : NodeAttrs) (e : String)
    (hord : (topoResult (buildGraph g)).1 = l1 ++ n :: l2)
    (hrun : execLoop svc (buildGraph g) l1 ⟨[], [], [], payload⟩ = .ok st1)
    (hattr : lookupNode (buildGraph g) n = some (some a))
    (hfail : svc a.endpoint (resolveInputs a.inputs st1.results st1.payload) = .error e)
    (hnoin : inEdges (buildGraph g) n = []) :
    (execute svc g payload).raised =
      some (.httpException 502 (n ++ " failed and no fallback available")) ∧
    (execute svc g payload).results = st1.results ∧
    (execute svc g payload).errors = aupd st1.errors n e ∧
    (execute svc g payload).calls = st1.calls ++
      [⟨n, a.endpoint, resolveInputs a.inputs st1.results st1.payload, .primary, false⟩] := by
  have hproc : procNode svc (buildGraph g) st1 n =
      .error (.httpException 502 (n ++ " failed and no fallback available"),
        { st1 with errors := aupd st1.errors n e,
                   calls := st1.calls ++
          [⟨n, a.endpoint, resolveInputs a.inputs st1.results st1.payload, .primary, false⟩] }) := by
    simp only [procNode, hattr, hfail, fallbackPhase, hnoin]
  have hloop : execLoop svc (buildGraph g) (topoResult (buildGraph g)).1
      (⟨[], [], [], payload⟩ : St) =
      .error (.httpException 502 (n ++ " failed and no fallback available"),
        { st1 with errors := aupd st1.errors n e,
                   calls := st1.calls ++
          [⟨n, a.endpoint, resolveInputs a.inputs st1.results st1.payload, .primary, false⟩] }) := by
    rw [hord, execLoop_append, hrun]
    simp only [execLoop, hproc]
  refine ⟨?_, ?_, ?_, ?_⟩
  · rw [execute_raised, hloop]
  · rw [execute_results, hloop]
    rfl
  · rw [execute_errors, hloop]
    rfl
  · rw [execute_calls, hloop]
    rfl

/-- Witness for the amended C2 at the concrete two-node graph: node A is
the first of the processing order, its call fails, and the run aborts
exactly as the amended claim states. -/
theorem claim2_witness :
    ((topoResult (buildGraph gC2)).1 = [] ++ "A" :: ["B"] ∧
      execLoop svcC2 (buildGraph gC2) [] ⟨[], [], [], []⟩ = .ok ⟨[], [], [], []⟩ ∧
      lookupNode (buildGraph gC2) "A" = some (some ⟨"uA", [], none⟩) ∧
      svcC2 "uA" (resolveInputs [] [] []) = .error "boom" ∧
      inEdges (buildGraph gC2) "A" = []) ∧
    ((execute svcC2 gC2 []).raised =
        some (.httpException 502 ("A" ++ " failed and no fallback available")) ∧
      (execute svcC2 gC2 []).results = [] ∧
      (execute svcC2 gC2 []).errors = aupd [] "A" "boom" ∧
      (execute svcC2 gC2 []).calls = [] ++
        [⟨"A", "uA", resolveInputs [] [] [], .primary, false⟩]) :=
  ⟨⟨by decide, rfl, by decide, rfl, rfl⟩,
   claim2_amended_abort_on_no_fallback svcC2 gC2 [] [] ["B"] "A"
     ⟨[], [], [], []⟩ ⟨"uA", [], none⟩ "boom" (by decide) rfl (by decide) rfl rfl⟩

/-- C3 counterexample: node A has its own fallback_endpoint "fbA" whose
endpoint would succeed, yet when A's primary call fails the fallback is
neither found nor attempted — the run aborts with HTTPException 502 and
the only call ever issued is the primary one. -/
theorem claim3_counterexample :
    (execute svcC3 gC3 []).raised =
      some (.httpException 502 "A failed and no fallback available") ∧
    (execute svcC3 gC3 []).calls.map CallRec.url = ["uA"] ∧
    (execute svcC3 gC3 []).results = [] := ⟨rfl, rfl, rfl⟩

/-- C3 (amended): the node's own `fallback_endpoint` field is never
consulted; the code looks only at the edge data of the first inbound
edge.  For a failing node with no inbound edges, no fallback is found —
even when `fallback_endpoint` is set — and the loop raises HTTPException
502 after issuing only the primary call. -/
theorem claim3_amended_node_fallback_ignored (svc : Svc) (G : DiGraph) (st : St)
    (n : String) (rest : List String) (a : NodeAttrs) (e : String) (fb : String)
    (hattr : lookupNode G n = some (some a))
    (hfb : a.fallback_endpoint = some fb)
    (hfail : svc a.endpoint (resolveInputs a.inputs st.results st.payload) = .error e)
    (hnoin : inEdges G n = []) :
    ∃ st', execLoop svc G (n :: rest) st =
        .error (.httpException 502 (n ++ " failed and no fallback available"), st') ∧
      st'.calls = st.calls ++
        [⟨n, a.endpoint, resolveInputs a.inputs st.results st.payload, .primary, false⟩] ∧
      st'.errors = aupd st.errors n e ∧
      st'.results = st.results := by
  have hproc : procNode svc G st n =
      .error (.httpException 502 (n ++ " failed and no fallback available"),
        { st with errors := aupd st.errors n e,
                  calls := st.calls ++
          [⟨n, a.endpoint, resolveInputs a.inputs st.results st.payload, .primary, false⟩] }) := by
    simp only [procNode, hattr, hfail, fallbackPhase, hnoin]
  have hstep : execLoop svc G (n :: rest) st =
      .error (.httpException 502 (n ++ " failed and no fallback available"),
        { st with errors := aupd st.errors n e,
                  calls := st.calls ++
          [⟨n, a.endpoint, resolveInputs a.inputs st.results st.payload, .primary, false⟩] }) := by
    simp only [execLoop, hproc]
  exact ⟨_, hstep, rfl, rfl, rfl⟩

/-- Witness for the amended C3 at the concrete single-node graph with a
configured but ignored fallback_endpoint. -/
theorem claim3_witness :
    (lookupNode (buildGraph gC3) "A" = some (some ⟨"uA", [], some "fbA"⟩) ∧
      (⟨"uA", [], some "fbA"⟩ : NodeAttrs).fallback_endpoint = some "fbA" ∧
      svcC3 "uA" (resolveInputs [] [] []) = .error "boom" ∧
      inEdges (buildGraph gC3) "A" = []) ∧
    (∃ st', execLoop svcC3 (buildGraph gC3) ["A"] stEmpty =
        .error (.httpException 502 ("A" ++ " failed and no fallback available"), st') ∧
      st'.calls = stEmpty.calls ++
        [⟨"A", "uA", resolveInputs [] stEmpty.results stEmpty.payload, .primary, false⟩] ∧
      st'.errors = aupd stEmpty.errors "A" "boom" ∧
      st'.results = stEmpty.results) :=
  ⟨⟨by decide, rfl, rfl, rfl⟩,
   claim3_amended_node_fallback_ignored svcC3 (buildGraph gC3) stEmpty "A" []
     ⟨"uA", [], some "fbA"⟩ "boom" "fbA" (by decide) rfl rfl rfl⟩

/-- C4 counterexample: gC4 contains a cycle (B ↔ C) and an edge to the
undeclared node D, yet the run is not rejected before execution: A's
endpoint is called (one network call is issued) and the run then dies
with a `KeyError` on the attribute-less auto-created node D — neither a
validation error nor a zero-call rejection. -/
theorem claim4_counterexample :
    (execute svcC4 gC4 []).calls.length = 1 ∧
    (execute svcC4 gC4 []).raised = some (.keyError "endpoint") ∧
    (topoResult (buildGraph gC4)).2 ≠ [] :=
  ⟨rfl, rfl, by decide⟩

/-- C4 (amended): a graph whose node set cannot be fully topologically
ordered (a cycle is present) never returns normally — `execute` always
ends with a raised exception, and when the executed orderable prefix
itself completes without raising, that exception is
`NetworkXUnfeasible`.  The rejection is not prior to execution: the
orderable prefix is executed first, so network calls may be issued, and
duplicate node names or unknown edge endpoints are not validated at all
(see the counterexample). -/
theorem claim4_amended_cycle_raises (svc : Svc) (g : GraphSpec)
    (payload : List (String × Val))
    (h : (topoResult (buildGraph g)).2 ≠ []) :
    (execute svc g payload).raised ≠ none ∧
    (∀ st', execLoop svc (buildGraph g) (topoResult (buildGraph g)).1
        ⟨[], [], [], payload⟩ = .ok st' →
      (execute svc g payload).raised = some PyErr.networkXUnfeasible) := by
  have hni : ¬ ((topoResult (buildGraph g)).2.isEmpty = true) := by
    intro hh
    exact h (List.isEmpty_iff.mp hh)
  constructor
  · intro hc
    rw [execute_raised] at hc
    cases hrun : execLoop svc (buildGraph g) (topoResult (buildGraph g)).1
        ⟨[], [], [], payload⟩ with
    | error err =>
      simp only [hrun] at hc
      cases hc
    | ok st' =>
      simp only [hrun] at hc
      rw [if_neg hni] at hc
      cases hc
  · intro st' hrun
    simp only [execute_raised, hrun]
    rw [if_neg hni]

/-- Witness for the amended C4 at the concrete cyclic graph. -/
theorem claim4_witness :
    (topoResult (buildGraph gC4)).2 ≠ [] ∧
    ((execute svcC4 gC4 []).raised ≠ none ∧
      (∀ st', execLoop svcC4 (buildGraph gC4) (topoResult (buildGraph gC4)).1
          ⟨[], [], [], []⟩ = .ok st' →
        (execute svcC4 gC4 []).raised = some PyErr.networkXUnfeasible)) :=
  ⟨by decide, claim4_amended_cycle_raises svcC4 gC4 [] (by decide)⟩

/-- C5 counterexample: in the one configuration where the code finds a
fallback and it succeeds (node named "fallback", dict-valued edge
attribute), the fallback output is recorded, but `errors["fallback"]` is
exactly the raw primary failure reason "boom" — no recovered annotation
is ever added, contrary to the claim. -/
theorem claim5_counterexample :
    (execute svcC5 gC5 []).raised = none ∧
    alookup (execute svcC5 gC5 []).results "fallback" = some (Val.str "fbout") ∧
    (execute svcC5 gC5 []).errors = [("fallback", "boom")] := ⟨rfl, rfl, rfl⟩

/-- C5 (amended): for every node whose primary call fails, whose
fallback endpoint is found, and whose fallback call succeeds, the
fallback is invoked with exactly the same resolved input payload as the
primary call and `results[name]` equals the fallback output — but
`errors[name]` holds exactly the unannotated primary failure reason.
(In the code a fallback is found only for a node literally named
"fallback" whose first inbound edge carries a dict-valued fallback
attribute with a truthy string under the key "fallback".) -/
theorem claim5_amended_fallback_success (svc : Svc) (G : DiGraph) (st : St)
    (a : NodeAttrs) (e : String) (m : List (String × Val)) (url : String) (out : Val)
    (u : String) (tl : List (String × Option Val))
    (hattr : lookupNode G "fallback" = some (some a))
    (hfail : svc a.endpoint (resolveInputs a.inputs st.results st.payload) = .error e)
    (hin : inEdges G "fallback" = (u, some (Val.obj m)) :: tl)
    (hfb : alookup m "fallback" = some (Val.str url))
    (hne : url ≠ "")
    (hok : svc url (resolveInputs a.inputs st.results st.payload) = .ok out) :
    ∃ st', procNode svc G st "fallback" = .ok st' ∧
      alookup st'.results "fallback" = some out ∧
      alookup st'.errors "fallback" = some e ∧
      st'.calls = st.calls ++
        [⟨"fallback", a.endpoint, resolveInputs a.inputs st.results st.payload, .primary, false⟩,
         ⟨"fallback", url, resolveInputs a.inputs st.results st.payload, .fallback, true⟩] := by
  have htr : (Val.str url).truthy = true := by
    simp [Val.truthy, hne]
  have hproc : procNode svc G st "fallback" = .ok
      { st with results := aupd st.results "fallback" out,
                errors := aupd st.errors "fallback" e,
                calls := st.calls ++
          [⟨"fallback", a.endpoint, resolveInputs a.inputs st.results st.payload, .primary, false⟩,
           ⟨"fallback", url, resolveInputs a.inputs st.results st.payload, .fallback, true⟩] } := by
    simp [procNode, hattr, hfail, fallbackPhase, hin, alookup, hfb, htr, hok]
  exact ⟨_, hproc, alookup_aupd_self _ _ _, alookup_aupd_self _ _ _, rfl⟩

/-- Witness for the amended C5 at the concrete "fallback"-named node of
gC5 starting from the fresh state. -/
theorem claim5_witness :
    (lookupNode (buildGraph gC5) "fallback" = some (some ⟨"pf", [], none⟩) ∧
      svcC5 "pf" (resolveInputs [] [] []) = .error "boom" ∧
      inEdges (buildGraph gC5) "fallback" =
        ("A", some (Val.obj [("fallback", Val.str "fb")])) :: [] ∧
      alookup [("fallback", Val.str "fb")] "fallback" = some (Val.str "fb") ∧
      "fb" ≠ "" ∧
      svcC5 "fb" (resolveInputs [] [] []) = .ok (Val.str "fbout")) ∧
    (∃ st', procNode svcC5 (buildGraph gC5) stEmpty "fallback" = .ok st' ∧
      alookup st'.results "fallback" = some (Val.str "fbout") ∧
      alookup st'.errors "fallback" = some "boom" ∧
      st'.calls = stEmpty.calls ++
        [⟨"fallback", "pf", resolveInputs [] stEmpty.results stEmpty.payload, .primary, false⟩,
         ⟨"fallback", "fb", resolveInputs [] stEmpty.results stEmpty.payload, .fallback, true⟩]) :=
  ⟨⟨by decide, rfl, rfl, rfl, by decide, rfl⟩,
   claim5_amended_fallback_success svcC5 (buildGraph gC5) stEmpty
     ⟨"pf", [], none⟩ "boom" [("fallback", Val.str "fb")] "fb" (Val.str "fbout") "A" []
     (by decide) rfl rfl rfl (by decide) rfl⟩

/-- C6: when a node's primary call fails and its fallback call is made
and also fails, exactly one fallback attempt occurs — the node
contributes exactly two calls (primary then fallback, same body) —, the
loop continues without raising, `results[name]` stays absent, and
`errors[name]` is the primary failure reason concatenated with the
fallback-failure annotation. -/
theorem claim6_fallback_failure_two_calls (svc : Svc) (G : DiGraph) (st : St)
    (a : NodeAttrs) (e e2 : String) (m : List (String × Val)) (url : String)
    (u : String) (tl : List (String × Option Val))
    (hattr : lookupNode G "fallback" = some (some a))
    (hfail : svc a.endpoint (resolveInputs a.inputs st.results st.payload) = .error e)
    (hin : inEdges G "fallback" = (u, some (Val.obj m)) :: tl)
    (hfb : alookup m "fallback" = some (Val.str url))
    (hne : url ≠ "")
    (hfb2 : svc url (resolveInputs a.inputs st.results st.payload) = .error e2)
    (habs : alookup st.results "fallback" = none) :
    ∃ st', procNode svc G st "fallback" = .ok st' ∧
      alookup st'.results "fallback" = none ∧
      alookup st'.errors "fallback" = some (e ++ "; fallback failed: " ++ e2) ∧
      st'.calls = st.calls ++
        [⟨"fallback", a.endpoint, resolveInputs a.inputs st.results st.payload, .primary, false⟩,
         ⟨"fallback", url, resolveInputs a.inputs st.results st.payload, .fallback, false⟩] := by
  have htr : (Val.str url).truthy = true := by
    simp [Val.truthy, hne]
  have hproc : procNode svc G st "fallback" = .ok
      { st with errors := aupd (aupd st.errors "fallback" e) "fallback"
                  (e ++ "; fallback failed: " ++ e2),
                calls := st.calls ++
          [⟨"fallback", a.endpoint, resolveInputs a.inputs st.results st.payload, .primary, false⟩,
           ⟨"fallback", url, resolveInputs a.inputs st.results st.payload, .fallback, false⟩] } := by
    simp [procNode, hattr, hfail, fallbackPhase, hin, alookup, hfb, htr, hfb2]
  exact ⟨_, hproc, habs, alookup_aupd_self _ _ _, rfl⟩

/-- Witness for C6 at the concrete "fallback"-named node of gC5 with a
service whose fallback URL also fails. -/
theorem claim6_witness :
    (lookupNode (buildGraph gC5) "fallback" = some (some ⟨"pf", [], none⟩) ∧
      svcC6 "pf" (resolveInputs [] [] []) = .error "boom" ∧
      inEdges (buildGraph gC5) "fallback" =
        ("A", some (Val.obj [("fallback", Val.str "fb")])) :: [] ∧
      alookup [("fallback", Val.str "fb")] "fallback" = some (Val.str "fb") ∧
      "fb" ≠ "" ∧
      svcC6 "fb" (resolveInputs [] [] []) = .error "bam" ∧
      alookup stEmpty.results "fallback" = none) ∧
    (∃ st', procNode svcC6 (buildGraph gC5) stEmpty "fallback" = .ok st' ∧
      alookup st'.results "fallback" = none ∧
      alookup st'.errors "fallback" = some ("boom" ++ "; fallback failed: " ++ "bam") ∧
      st'.calls = stEmpty.calls ++
        [⟨"fallback", "pf", resolveInputs [] stEmpty.results stEmpty.payload, .primary, false⟩,
         ⟨"fallback", "fb", resolveInputs [] stEmpty.results stEmpty.payload, .fallback, false⟩]) :=
  ⟨⟨by decide, rfl, rfl, rfl, by decide, rfl, rfl⟩,
   claim6_fallback_failure_two_calls svcC6 (buildGraph gC5) stEmpty
     ⟨"pf", [], none⟩ "boom" "bam" [("fallback", Val.str "fb")] "fb" "A" []
     (by decide) rfl rfl rfl (by decide) rfl rfl⟩

/-- C7: for every node with attributes, (i) the primary call is issued
with the resolved body no matter which input keys are unresolvable —
the node is invoked, not failed —, and (ii) for every declared input
key k with source v (keys of a Python dict are unique), the field k of
the resolved body is the recorded upstream result under v when one
exists, otherwise the initial payload entry under v, otherwise null. -/
theorem claim7_input_resolution (svc : Svc) (G : DiGraph) (st : St) (n : String)
    (a : NodeAttrs)
    (hattr : lookupNode G n = some (some a))
    (hnd : (a.inputs.map Prod.fst).Nodup) :
    (∃ b ext, (stOf (procNode svc G st n)).calls =
      st.calls ++
        (⟨n, a.endpoint, resolveInputs a.inputs st.results st.payload, .primary, b⟩ :: ext)) ∧
    (∀ k v, (k, v) ∈ a.inputs →
      alookup (resolveFields a.inputs st.results st.payload) k =
        some (match alookup st.results v with
              | some r => r
              | none =>
                match alookup st.payload v with
                | some pv => pv
                | none => Val.null)) := by
  constructor
  · rcases procNode_cases svc G st n with ⟨hno, hc⟩ | ⟨node, out, hl, hs, hc⟩ |
      ⟨node, e, hl, hs, hc⟩
    · exact absurd hattr (hno a)
    · rw [hattr] at hl
      injection hl with hl
      injection hl with hl
      subst hl
      rw [hc]
      exact ⟨true, [], rfl⟩
    · rw [hattr] at hl
      injection hl with hl
      injection hl with hl
      subst hl
      rw [hc]
      obtain ⟨_, ⟨ext, hcalls, _⟩, _, _⟩ := fallbackPhase_stOf_spec svc G n
        (resolveInputs a.inputs st.results st.payload) e
        { st with errors := aupd st.errors n e,
                  calls := st.calls ++
            [⟨n, a.endpoint, resolveInputs a.inputs st.results st.payload, .primary, false⟩] }
      refine ⟨false, ext, ?_⟩
      rw [hcalls]
      simp
  · intro k v hkv
    rw [alookup_resolveFields a.inputs st.results st.payload k v hnd hkv]
    rfl

/-- Witness for C7 at a node drawing one input from an upstream result,
one from the payload, and one from nowhere. -/
theorem claim7_witness :
    (lookupNode (buildGraph gC7) "B" = some (some aC7) ∧
      (aC7.inputs.map Prod.fst).Nodup) ∧
    ((∃ b ext, (stOf (procNode svcC8 (buildGraph gC7) stC7 "B")).calls =
      stC7.calls ++
        (⟨"B", aC7.endpoint, resolveInputs aC7.inputs stC7.results stC7.payload,
          .primary, b⟩ :: ext)) ∧
     (∀ k v, (k, v) ∈ aC7.inputs →
        alookup (resolveFields aC7.inputs stC7.results stC7.payload) k =
          some (match alookup stC7.results v with
                | some r => r
                | none =>
                  match alookup stC7.payload v with
                  | some pv => pv
                  | none => Val.null))) :=
  ⟨⟨by decide, by decide⟩,
   claim7_input_resolution svcC8 (buildGraph gC7) stC7 "B" aC7 (by decide) (by decide)⟩

/-- C8: two runs of `execute` with the same graph and payload against
pointwise-equal deterministic service stubs (each endpoint a fixed
function of its request body) produce identical results and errors
mappings — here even as identically ordered association lists, which is
stronger than equality as key-value sets. -/
theorem claim8_deterministic (svc1 svc2 : Svc) (g : GraphSpec)
    (payload : List (String × Val))
    (h : ∀ url body, svc1 url body = svc2 url body) :
    (execute svc1 g payload).results = (execute svc2 g payload).results ∧
    (execute svc1 g payload).errors = (execute svc2 g payload).errors := by
  have he : svc1 = svc2 := funext fun url => funext fun body => h url body
  rw [he]
  exact ⟨rfl, rfl⟩

/-- Witness for C8 with the echo service against the two-node chain. -/
theorem claim8_witness :
    (∀ url body, svcC8 url body = svcC8 url body) ∧
    ((execute svcC8 gC1 []).results = (execute svcC8 gC1 []).results ∧
     (execute svcC8 gC1 []).errors = (execute svcC8 gC1 []).errors) :=
  ⟨fun _ _ => rfl, claim8_deterministic svcC8 svcC8 gC1 [] (fun _ _ => rfl)⟩

/-- C9: `execute` never mutates the initial payload mapping — the
payload in the final run state equals the payload passed in, key for key
and value for value, under every combination of node successes,
failures and raised exceptions. -/
theorem claim9_payload_preserved (svc : Svc) (g : GraphSpec)
    (payload : List (String × Val)) :
    (execute svc g payload).payload = payload := by
  rw [execute_payload_eq]
  exact (execLoop_stOf_spec svc (buildGraph g) (topoResult (buildGraph g)).1
    ⟨[], [], [], payload⟩).1

/-- C10: whenever `execute` returns normally (no exception raised),
every node of the graph appears as a key of results or errors, and a
name is a key of errors exactly when the run issued a failing primary
call for that node. -/
theorem claim10_coverage_and_errors (svc : Svc) (g : GraphSpec)
    (payload : List (String × Val))
    (h : (execute svc g payload).raised = none) :
    (∀ n ∈ nodeKeys (buildGraph g),
      (alookup (execute svc g payload).results n).isSome ∨
      (alookup (execute svc g payload).errors n).isSome) ∧
    (∀ n, (alookup (execute svc g payload).errors n).isSome ↔
      ∃ c ∈ (execute svc g payload).calls,
        c.node = n ∧ c.kind = CallKind.primary ∧ c.ok = false) := by
  rw [execute_raised] at h
  cases hrun : execLoop svc (buildGraph g) (topoResult (buildGraph g)).1
      ⟨[], [], [], payload⟩ with
  | error err =>
    simp only [hrun] at h
    cases h
  | ok st' =>
    simp only [hrun] at h
    have hleft : (topoResult (buildGraph g)).2 = [] := by
      by_cases hb : (topoResult (buildGraph g)).2.isEmpty = true
      · exact List.isEmpty_iff.mp hb
      · rw [if_neg hb] at h
        cases h
    obtain ⟨ext, hc, ho, hp, hcov, hiff, hr⟩ :=
      execLoop_ok_spec svc (buildGraph g) (topoResult (buildGraph g)).1
        ⟨[], [], [], payload⟩ st' hrun
    have hres : (execute svc g payload).results = st'.results := by
      rw [execute_results, hrun]
      rfl
    have herr : (execute svc g payload).errors = st'.errors := by
      rw [execute_errors, hrun]
      rfl
    have hcalls : (execute svc g payload).calls = st'.calls := by
      rw [execute_calls, hrun]
      rfl
    constructor
    · intro n hn
      have hmem : n ∈ (topoResult (buildGraph g)).1 := by
        rcases topoAux_cover (buildGraph g) (nodeKeys (buildGraph g)).length []
          (nodeKeys (buildGraph g)) n hn with h1 | h1
        · exact h1
        · rw [show (topoAux (buildGraph g) (nodeKeys (buildGraph g)).length []
            (nodeKeys (buildGraph g))).2 = (topoResult (buildGraph g)).2 from rfl,
            hleft] at h1
          cases h1
      rw [hres, herr]
      exact hcov n hmem
    · intro n
      rw [herr, hcalls, hiff n, hc]
      constructor
      · intro h1
        rcases h1 with h1 | ⟨c, hcm, hrest⟩
        · simp [alookup] at h1
        · exact ⟨c, hcm, hrest⟩
      · rintro ⟨c, hcm, hrest⟩
        exact Or.inr ⟨c, hcm, hrest⟩

/-- Witness for C10: the gC5 run returns normally with one error entry
(the failing primary call of the node named "fallback"). -/
theorem claim10_witness :
    (execute svcC5 gC5 []).raised = none ∧
    ((∀ n ∈ nodeKeys (buildGraph gC5),
        (alookup (execute svcC5 gC5 []).results n).isSome ∨
        (alookup (execute svcC5 gC5 []).errors n).isSome) ∧
     (∀ n, (alookup (execute svcC5 gC5 []).errors n).isSome ↔
        ∃ c ∈ (execute svcC5 gC5 []).calls,
          c.node = n ∧ c.kind = CallKind.primary ∧ c.ok = false)) :=
  ⟨rfl, claim10_coverage_and_errors svcC5 gC5 [] rfl⟩

end ControlPlane
